import Mathlib

/-!
Verification development for the Simon Says game engine of
src/src/app/game/simon/page.tsx.

The component is a React page; its game logic is a finite-state machine
driven by event handlers (button clicks) and scheduled timer callbacks
(setInterval for sequence playback, setTimeout for highlight clears and
the success/failure settle delays).  We embed the handlers as pure Lean
functions on an explicit state record, and the timer-driven behaviour as
an event-step semantics: each user action or timer firing is one atomic
event, matching the single-threaded JavaScript execution model in which
each handler runs to completion.

Randomness: the source draws Math.floor(Math.random() * buttons), a value
in [0, buttons).  We model the random oracle as an arbitrary natural
number r supplied with the event and reduce it into range as r % buttons
(randIndex below), which ranges over exactly the values the source
expression can produce.

JavaScript array indexing a[i] yields undefined out of range; we model a
read as List.get? returning an Option, so the inequality test
newInput[last] !== sequence[last] becomes an inequality of Option values,
faithfully treating an out-of-range read as unequal to any number.
-/

namespace Simon

/-- The five game states of the source: type GameState (line 6). -/
inductive GameState
  | idle
  | showing
  | input
  | success
  | failure
deriving DecidableEq

/-- The three difficulties of the source: type Difficulty (line 7). -/
inductive Difficulty
  | easy
  | medium
  | hard
deriving DecidableEq

/-- DIFFICULTY_CONFIG button counts (lines 9-13). -/
def Difficulty.buttons : Difficulty → Nat
  | .easy => 4
  | .medium => 7
  | .hard => 10

/-- BUTTON_FREQUENCIES (line 28): the tone frequency table, ten entries.
The source stores IEEE doubles; the exact decimal values are rationals,
and only the list length matters for the bounds claims. -/
def BUTTON_FREQUENCIES : List ℚ :=
  [261.63, 329.63, 392.00, 523.25, 659.25, 783.99, 880.00, 1046.50, 1174.66, 1318.51]

/-- The body of one of the settle setTimeout callbacks scheduled by
handleButtonClick, together with the state the closure captured:
strictFail is the strict-mode game-over body (lines 195-200), replay cs
is the non-strict replay body with its captured sequence (lines 203-207),
succeed cs cr is the success body with its captured sequence and
currentRound (lines 216-225). -/
inductive SettleAct
  | strictFail
  | replay (cs : List Nat)
  | succeed (cs : List Nat) (cr : Nat)
deriving DecidableEq

/-- The engine state: the useState fields of the component (lines 31-41)
that the game logic reads or writes, plus the per-difficulty localStorage
slot simon-best-d (none models an absent key), plus two bookkeeping
fields for the scheduled timers: pendings is the list of settle
setTimeout callbacks currently scheduled, and playing is the argument of
the most recent showSequence call (the list being played back). -/
structure Model where
  gameState : GameState
  difficulty : Difficulty
  sequence : List Nat
  playerInput : List Nat
  currentRound : Nat
  bestScore : Nat
  showingIndex : Int
  strictMode : Bool
  pendings : List SettleAct
  playing : Option (List Nat)
  store : Difficulty → Option Nat

/-- Math.floor(Math.random() * DIFFICULTY_CONFIG[difficulty].buttons):
an arbitrary oracle value r reduced into [0, buttons). -/
def randIndex (r : Nat) (d : Difficulty) : Nat := r % d.buttons

/-- handleButtonClick (lines 166-227), the part that runs synchronously in
the handler.  Returns the updated state together with the settle callback
the handler schedules, if any.  When gameState is not input the handler
returns at line 167 before touching anything.  Otherwise it shows the
press highlight (line 170), appends the click to playerInput (lines
184-185), and compares newInput[newInput.length-1] with
sequence[newInput.length-1] (line 188): on inequality it sets failure and
schedules the strict or non-strict settle callback (lines 190-208); on a
complete match it sets success and schedules the growth callback (lines
213-225); otherwise it leaves the state in input. -/
def handleButtonClick (b : Nat) (s : Model) : Model × Option SettleAct :=
  if s.gameState ≠ GameState.input then (s, none)
  else
    let newInput := s.playerInput ++ [b]
    let s2 : Model := { s with showingIndex := (b : Int), playerInput := newInput }
    if newInput.get? (newInput.length - 1) ≠ s.sequence.get? (newInput.length - 1) then
      ({ s2 with gameState := GameState.failure },
        some (if s.strictMode then SettleAct.strictFail else SettleAct.replay s.sequence))
    else if newInput.length = s.sequence.length then
      ({ s2 with gameState := GameState.success },
        some (SettleAct.succeed s.sequence s.currentRound))
    else (s2, none)

/-- The body of a settle callback when it fires.  strictFail: lines
196-199.  replay cs: lines 204-206, which clear playerInput, return to
showing and call showSequence on the captured sequence (the state field
sequence is not written).  succeed cs cr: lines 218-224, which set
currentRound to the captured round plus one, extend the captured sequence
by one fresh random index, clear playerInput, return to showing and play
the extended sequence.  r is the random oracle for the fresh index. -/
def applySettle (a : SettleAct) (r : Nat) (s : Model) : Model :=
  match a with
  | SettleAct.strictFail =>
      { s with gameState := GameState.idle, currentRound := 0,
               sequence := [], playerInput := [] }
  | SettleAct.replay cs =>
      { s with playerInput := [], gameState := GameState.showing, playing := some cs }
  | SettleAct.succeed cs cr =>
      { s with currentRound := cr + 1, sequence := cs ++ [randIndex r s.difficulty],
               playerInput := [], gameState := GameState.showing,
               playing := some (cs ++ [randIndex r s.difficulty]) }

/-- The load-best-score effect (lines 44-48): on a difficulty change the
stored value is read and, only if present, written into bestScore; when
the key is absent bestScore keeps its previous value (the source guards
with if saved). -/
def loadBest (s : Model) (d : Difficulty) : Nat :=
  match s.store d with
  | some v => v
  | none => s.bestScore

/-- The save-best-score effect (lines 50-56): whenever currentRound
exceeds bestScore, both the in-memory bestScore and the localStorage slot
for the active difficulty are set to currentRound. -/
def saveBest (s : Model) : Model :=
  if s.bestScore < s.currentRound then
    { s with bestScore := s.currentRound,
             store := fun d => if d = s.difficulty then some s.currentRound else s.store d }
  else s

/-- The atomic events of the engine.  press is a button click or validated
key press (handleButtonClick); pressClear is the 150 ms press-highlight
timeout body (lines 179-181); playbackDone is the 600 ms end-of-playback
timeout body that moves showing to input (lines 154-158); settleFire i r
is the firing of the i-th scheduled settle callback with random oracle r;
reset is resetGame (lines 289-323); menu is goToMenu (lines 325-344);
start is startGame (lines 112-119, the start button is rendered only in
the idle menu, lines 362-391); selectDifficulty and setStrict are the
idle-menu controls (lines 366-385). -/
inductive Event
  | press (b : Nat)
  | pressClear
  | playbackDone
  | settleFire (i : Nat) (r : Nat)
  | reset (r : Nat)
  | menu
  | start (r : Nat)
  | selectDifficulty (d : Difficulty)
  | setStrict (m : Bool)

/-- One engine event, before the save-best-score effect.  The cancel
parameter selects how reset and menu treat the scheduled settle
callbacks: the source stores no handle for them and cancels nothing
(cancel = false); the playback-cancellation contract of the spec asks for
them to be invalidated (cancel = true).  Everything else is identical in
the two semantics. -/
def coreStep (cancel : Bool) (e : Event) (s : Model) : Model :=
  match e with
  | Event.press b =>
      let r := handleButtonClick b s
      { r.1 with pendings := r.1.pendings ++ r.2.toList }
  | Event.pressClear => { s with showingIndex := -1 }
  | Event.playbackDone =>
      if s.gameState = GameState.showing then
        { s with gameState := GameState.input, playing := none }
      else s
  | Event.settleFire i r =>
      match s.pendings.get? i with
      | none => s
      | some a => applySettle a r { s with pendings := s.pendings.eraseIdx i }
  | Event.reset r =>
      let cleared := if cancel then [] else s.pendings
      if s.gameState ≠ GameState.idle then
        { s with showingIndex := -1, playerInput := [], currentRound := 1,
                 sequence := [randIndex r s.difficulty], gameState := GameState.showing,
                 playing := some [randIndex r s.difficulty], pendings := cleared }
      else
        { s with showingIndex := -1, playerInput := [], currentRound := 0,
                 sequence := [], gameState := GameState.idle, pendings := cleared }
  | Event.menu =>
      { s with gameState := GameState.idle, currentRound := 0, sequence := [],
               playerInput := [], showingIndex := -1, playing := none,
               pendings := if cancel then [] else s.pendings }
  | Event.start r =>
      if s.gameState = GameState.idle then
        { s with gameState := GameState.showing, currentRound := 1, playerInput := [],
                 sequence := [randIndex r s.difficulty],
                 playing := some [randIndex r s.difficulty] }
      else s
  | Event.selectDifficulty d =>
      if s.gameState = GameState.idle then
        { s with difficulty := d, bestScore := loadBest s d }
      else s
  | Event.setStrict m =>
      if s.gameState = GameState.idle then { s with strictMode := m } else s

/-- One engine event followed by the save-best-score effect, which in the
source re-runs after every state update whose dependencies changed;
running it after every event is equivalent because it is idempotent and
acts only when currentRound exceeds bestScore. -/
def step (cancel : Bool) (e : Event) (s : Model) : Model :=
  saveBest (coreStep cancel e s)

/-- A whole run: fold the events over a starting state. -/
def run (cancel : Bool) (es : List Event) (s : Model) : Model :=
  es.foldl (fun t e => step cancel e t) s

/-- The initial mount state (lines 31-42): idle, easy, empty buffers,
round and best zero, nothing highlighted, strict off, no timers, and an
empty localStorage. -/
def init : Model :=
  { gameState := GameState.idle, difficulty := Difficulty.easy, sequence := [],
    playerInput := [], currentRound := 0, bestScore := 0, showingIndex := -1,
    strictMode := false, pendings := [], playing := none, store := fun _ => none }

/-!
Timed playback model, for the cancellation contract of showSequence
(lines 122-163) against resetGame (lines 289-301).  Here we keep the
timer mechanics explicit: the single shared cancellation ref, the stored
interval handle, and the anonymous 400 ms highlight-clear and 600 ms
input-transition setTimeouts, whose handles the source never stores.
Each scheduled timeout is tagged with the playback run that created it,
and every externally visible effect is logged with its run tag, so the
claim that no event of a cancelled run ever fires can be read off the
log.
-/

/-- An externally visible effect of the playback machinery, tagged with
the playback run that caused it: a button highlight (lines 141-142), a
highlight clear (line 146), or the transition into the input state
(line 156). -/
inductive PEffect
  | highlight (rid : Nat) (idx : Nat)
  | clearHl (rid : Nat)
  | toInput (rid : Nat)
deriving DecidableEq

/-- State of the playback machinery: flag is isSequenceCancelledRef
(line 42); interval is the stored setInterval handle (line 40) holding
the run id, the captured sequence and the captured index counter;
pendingClears and pendingTrans are the run tags of the scheduled 400 ms
and 600 ms setTimeouts, which the source does not store and therefore
can never clear; nextRun numbers playback runs; log records every
visible effect in order. -/
structure PlayState where
  flag : Bool
  interval : Option (Nat × List Nat × Nat)
  pendingClears : List Nat
  pendingTrans : List Nat
  pGameState : GameState
  pShowingIndex : Int
  nextRun : Nat
  log : List PEffect

/-- Events of the playback machinery: beginRun seq is a call to
showSequence(seq); tick is one firing of the interval callback;
fireClear and fireTrans are the firings of the scheduled 400 ms and
600 ms setTimeouts of the given run; cancelReset is the cancellation part
of resetGame (lines 291-297: set the flag, clear the stored interval). -/
inductive PEv
  | beginRun (seq : List Nat)
  | tick
  | fireClear (rid : Nat)
  | fireTrans (rid : Nat)
  | cancelReset

/-- One playback event.  beginRun (lines 123-131, 162): reset the shared
flag to false, replace the stored interval with a fresh one for the new
run.  tick (lines 132-160): if the flag is set, stop (lines 134-138);
if elements remain, highlight the next one and schedule its 400 ms clear
(lines 140-150); otherwise stop the interval and schedule the 600 ms
transition into input (lines 151-159).  fireClear (lines 144-148) and
fireTrans (lines 154-158) check the shared flag, not the run they belong
to.  cancelReset (lines 291-297): set the flag, clear the stored
interval; the pending setTimeouts have no stored handle and stay. -/
def pstep (e : PEv) (s : PlayState) : PlayState :=
  match e with
  | PEv.beginRun seq =>
      { s with pShowingIndex := -1, flag := false,
               interval := some (s.nextRun, seq, 0), nextRun := s.nextRun + 1 }
  | PEv.tick =>
      match s.interval with
      | none => s
      | some (rid, seq, i) =>
          if s.flag then { s with interval := none }
          else if h : i < seq.length then
            { s with pShowingIndex := Int.ofNat (seq.get ⟨i, h⟩),
                     pendingClears := s.pendingClears ++ [rid],
                     interval := some (rid, seq, i + 1),
                     log := s.log ++ [PEffect.highlight rid i] }
          else
            { s with interval := none, pendingTrans := s.pendingTrans ++ [rid] }
  | PEv.fireClear rid =>
      if s.pendingClears.contains rid then
        if s.flag then { s with pendingClears := s.pendingClears.erase rid }
        else
          { s with pendingClears := s.pendingClears.erase rid,
                   pShowingIndex := -1, log := s.log ++ [PEffect.clearHl rid] }
      else s
  | PEv.fireTrans rid =>
      if s.pendingTrans.contains rid then
        if s.flag then { s with pendingTrans := s.pendingTrans.erase rid }
        else
          { s with pendingTrans := s.pendingTrans.erase rid,
                   pGameState := GameState.input, log := s.log ++ [PEffect.toInput rid] }
      else s
  | PEv.cancelReset => { s with flag := true, interval := none }

/-- A playback trace: fold the events over a starting state. -/
def prun (es : List PEv) (s : PlayState) : PlayState :=
  es.foldl (fun t e => pstep e t) s

/-- Playback machinery at the moment showSequence is first reachable:
no run yet, flag clear, nothing scheduled, game in showing. -/
def pinit : PlayState :=
  { flag := false, interval := none, pendingClears := [], pendingTrans := [],
    pGameState := GameState.showing, pShowingIndex := -1, nextRun := 0, log := [] }

/-- The trace that exhibits the stale-callback race: run 0 plays a
one-element sequence to completion and schedules its 600 ms transition;
resetGame cancels; the delayed showSequence of resetGame starts run 1
(50 ms later, so before the stale 600 ms timeout fires); then run 0's
transition fires.  All five timer firings respect the source's real
delays (700 ms ticks, 400 ms clear, 50 ms reset grace, 600 ms
transition). -/
def staleTrace : List PEv :=
  [PEv.beginRun [0], PEv.tick, PEv.fireClear 0, PEv.tick,
   PEv.cancelReset, PEv.beginRun [1], PEv.fireTrans 0]

/-!  Invariants of the engine semantics.  -/

/-- Consistency of the data a scheduled success callback captured: the
captured sequence length equals the captured round.  This holds at
capture time (line 213 fires only when the lengths agree, and the
sequence-length-equals-round invariant holds there) and is all that is
needed for the length invariant to survive the callback firing. -/
def PendQ : SettleAct → Prop
  | SettleAct.succeed cs cr => cs.length = cr
  | _ => True

/-- The sequence-length invariant together with consistency of every
scheduled settle callback.  Inductive under both the cancel = false
(source) and cancel = true (intended cancellation) semantics. -/
def InvQ (s : Model) : Prop :=
  s.sequence.length = s.currentRound ∧ ∀ p ∈ s.pendings, PendQ p

/-- Well-formedness of captured settle data relative to the active
difficulty: a success callback captured a sequence of length equal to
its captured round whose elements are valid button indices. -/
def PendOK (d : Difficulty) : SettleAct → Prop
  | SettleAct.succeed cs cr => cs.length = cr ∧ ∀ x ∈ cs, x < d.buttons
  | _ => True

/-- The full inductive invariant of the cancel = true semantics (the
semantics in which reset and menu invalidate the scheduled settle
callbacks, as the cancellation contract intends). -/
def InvR (s : Model) : Prop :=
  s.sequence.length = s.currentRound ∧
  (∀ p ∈ s.pendings, PendOK s.difficulty p) ∧
  (s.gameState = GameState.idle →
    s.sequence = [] ∧ s.pendings = [] ∧ s.playerInput = []) ∧
  (s.gameState = GameState.showing → s.playerInput = [] ∧ s.pendings = []) ∧
  (s.gameState = GameState.input →
    s.playerInput.length < s.sequence.length ∧ s.pendings = []) ∧
  (s.gameState = GameState.success → s.playerInput.length ≤ s.sequence.length) ∧
  (s.gameState = GameState.failure → s.playerInput.length ≤ s.sequence.length) ∧
  (s.gameState ≠ GameState.idle → 1 ≤ s.currentRound) ∧
  s.pendings.length ≤ 1 ∧
  (∀ x ∈ s.sequence, x < s.difficulty.buttons)

/-!  Claim statements as predicates, and concrete inputs for witnesses
and counterexamples.  -/

/-- The input-verification outcome of one click b in the input state:
the click is appended to playerInput, and the comparison against the
sequence slot at the new last position (index length of the old
playerInput) decides the transition: a match short of the full length
stays in input with no callback scheduled, a match completing the full
length moves to success, and a mismatch moves to failure whatever
strictMode is (the conclusion does not mention strictMode). -/
def clickOutcome (s : Model) (b : Nat) : Prop :=
  (handleButtonClick b s).1.playerInput = s.playerInput ++ [b] ∧
  (s.sequence.get? s.playerInput.length = some b →
    s.playerInput.length + 1 < s.sequence.length →
    (handleButtonClick b s).1.gameState = GameState.input ∧
    (handleButtonClick b s).2 = none) ∧
  (s.sequence.get? s.playerInput.length = some b →
    s.playerInput.length + 1 = s.sequence.length →
    (handleButtonClick b s).1.gameState = GameState.success) ∧
  (s.sequence.get? s.playerInput.length ≠ some b →
    (handleButtonClick b s).1.gameState = GameState.failure)

/-- The failure-recovery outcome after a mismatched click: the handler
schedules the strict callback when strictMode is on and the replay
callback, capturing the current sequence, when it is off; the strict
callback resets to idle with round zero and empty buffers; the replay
callback clears playerInput, returns to showing, leaves the sequence
untouched in length and content, leaves the round unchanged, and plays
back exactly the same sequence with no new element. -/
def failureRecovery (s : Model) (b r : Nat) : Prop :=
  (handleButtonClick b s).2 =
    some (if s.strictMode then SettleAct.strictFail else SettleAct.replay s.sequence) ∧
  (s.strictMode = true →
    (applySettle SettleAct.strictFail r (handleButtonClick b s).1).gameState
        = GameState.idle ∧
    (applySettle SettleAct.strictFail r (handleButtonClick b s).1).currentRound = 0 ∧
    (applySettle SettleAct.strictFail r (handleButtonClick b s).1).sequence = [] ∧
    (applySettle SettleAct.strictFail r (handleButtonClick b s).1).playerInput = []) ∧
  (s.strictMode = false →
    (applySettle (SettleAct.replay s.sequence) r (handleButtonClick b s).1).playerInput
        = [] ∧
    (applySettle (SettleAct.replay s.sequence) r (handleButtonClick b s).1).gameState
        = GameState.showing ∧
    (applySettle (SettleAct.replay s.sequence) r (handleButtonClick b s).1).sequence
        = s.sequence ∧
    (applySettle (SettleAct.replay s.sequence) r (handleButtonClick b s).1).currentRound
        = s.currentRound ∧
    (applySettle (SettleAct.replay s.sequence) r (handleButtonClick b s).1).playing
        = some s.sequence)

/-- The round-growth outcome after a round-completing click: the handler
schedules the success callback capturing the current sequence and round,
and the callback extends the captured sequence by exactly one fresh
random index at the end (leaving every earlier element in place),
increments the round, clears playerInput, returns to showing and plays
back the whole extended sequence. -/
def roundGrowth (s : Model) (b r : Nat) : Prop :=
  (handleButtonClick b s).2 = some (SettleAct.succeed s.sequence s.currentRound) ∧
  (applySettle (SettleAct.succeed s.sequence s.currentRound) r
      (handleButtonClick b s).1).sequence = s.sequence ++ [randIndex r s.difficulty] ∧
  ((applySettle (SettleAct.succeed s.sequence s.currentRound) r
      (handleButtonClick b s).1).sequence).take s.sequence.length = s.sequence ∧
  (applySettle (SettleAct.succeed s.sequence s.currentRound) r
      (handleButtonClick b s).1).currentRound = s.currentRound + 1 ∧
  (applySettle (SettleAct.succeed s.sequence s.currentRound) r
      (handleButtonClick b s).1).playerInput = [] ∧
  (applySettle (SettleAct.succeed s.sequence s.currentRound) r
      (handleButtonClick b s).1).gameState = GameState.showing ∧
  (applySettle (SettleAct.succeed s.sequence s.currentRound) r
      (handleButtonClick b s).1).playing
      = some (s.sequence ++ [randIndex r s.difficulty]) ∧
  randIndex r s.difficulty < s.difficulty.buttons

/-- Frame property of the failure state: while the game sits in failure,
no event other than a settle callback, reset or menu touches playerInput,
and reset and menu clear it. -/
def failureFrame : Prop :=
  ∀ (c : Bool) (t : Model), t.gameState = GameState.failure →
    (∀ b, (step c (Event.press b) t).playerInput = t.playerInput) ∧
    (step c Event.pressClear t).playerInput = t.playerInput ∧
    (step c Event.playbackDone t).playerInput = t.playerInput ∧
    (∀ r, (step c (Event.start r) t).playerInput = t.playerInput) ∧
    (∀ d, (step c (Event.selectDifficulty d) t).playerInput = t.playerInput) ∧
    (∀ m, (step c (Event.setStrict m) t).playerInput = t.playerInput) ∧
    (∀ r, (step c (Event.reset r) t).playerInput = []) ∧
    (step c Event.menu t).playerInput = []

/-- A reachable trace on easy difficulty: one round is completed, the
sequence grows to [0, 1], then the player matches the first slot and
misses the second, final, slot. -/
def c6trace : List Event :=
  [Event.start 0, Event.playbackDone, Event.press 0, Event.settleFire 0 1,
   Event.playbackDone, Event.press 0, Event.press 0]

/-- A reachable trace: reach round 1 on easy (storing a best of 1 for
easy), go back to the menu, switch to medium (which has no stored best),
and start a game on medium, reaching round 1 there. -/
def c7trace : List Event :=
  [Event.start 0, Event.menu, Event.selectDifficulty Difficulty.medium,
   Event.start 0]

/-- A trace of the source (cancel = false) semantics: a non-strict
mismatch schedules the replay callback, the player navigates to the menu
before the 1500 ms settle delay elapses (which clears the sequence but
cannot cancel the callback, whose handle the source never stores), the
stale callback then fires and replays its captured sequence, and the
playback ends in the input state while the sequence state is empty. -/
def c8trace : List Event :=
  [Event.start 0, Event.playbackDone, Event.press 1, Event.menu,
   Event.settleFire 0 0, Event.playbackDone]

/-- A state in the middle of a round, used by witnesses: easy game,
sequence [2, 3], round 2, the player has not yet pressed anything. -/
def wInput : Model :=
  { init with gameState := GameState.input, sequence := [2, 3], currentRound := 2 }

/-- A first-round state with a one-element sequence, used by the
round-growth witness. -/
def wRound1 : Model :=
  { init with gameState := GameState.input, sequence := [2], currentRound := 1 }

/-- A state one correct press away from completing the round, used by the
retention witness. -/
def wAlmost : Model :=
  { init with gameState := GameState.input, sequence := [2, 3],
              playerInput := [2], currentRound := 2 }

/-- A state mid-playback, used by the frame witness. -/
def wShowing : Model :=
  { init with gameState := GameState.showing, sequence := [2], currentRound := 1 }

/-- A failure state with a full playerInput, used by the retention
witness. -/
def wFailure : Model :=
  { init with gameState := GameState.failure, sequence := [2, 3],
              playerInput := [2, 0], currentRound := 2 }


/-!  Helper lemmas.  -/

@[simp] theorem saveBest_gameState (s : Model) : (saveBest s).gameState = s.gameState := by
  unfold saveBest; split <;> rfl

@[simp] theorem saveBest_sequence (s : Model) : (saveBest s).sequence = s.sequence := by
  unfold saveBest; split <;> rfl

@[simp] theorem saveBest_currentRound (s : Model) : (saveBest s).currentRound = s.currentRound := by
  unfold saveBest; split <;> rfl

@[simp] theorem saveBest_pendings (s : Model) : (saveBest s).pendings = s.pendings := by
  unfold saveBest; split <;> rfl

@[simp] theorem saveBest_difficulty (s : Model) : (saveBest s).difficulty = s.difficulty := by
  unfold saveBest; split <;> rfl

@[simp] theorem saveBest_playing (s : Model) : (saveBest s).playing = s.playing := by
  unfold saveBest; split <;> rfl

@[simp] theorem saveBest_playerInput (s : Model) : (saveBest s).playerInput = s.playerInput := by
  unfold saveBest; split <;> rfl

theorem randIndex_lt (r : Nat) (d : Difficulty) : randIndex r d < d.buttons := by
  unfold randIndex
  exact Nat.mod_lt _ (by cases d <;> decide)

theorem failureFrame_holds : failureFrame := by
  intro c t ht
  refine ⟨?_, ?_, ?_, ?_, ?_, ?_, ?_, ?_⟩
  · intro b; simp [step, coreStep, handleButtonClick, ht]
  · simp [step, coreStep]
  · simp [step, coreStep, ht]
  · intro r; simp [step, coreStep, ht]
  · intro d; simp [step, coreStep, ht]
  · intro m; simp [step, coreStep, ht]
  · intro r; simp [step, coreStep, ht]
  · simp [step, coreStep]

theorem invQ_saveBest (s : Model) : InvQ (saveBest s) ↔ InvQ s := by
  unfold saveBest; split <;> exact Iff.rfl

theorem hbc_static (b : Nat) (s : Model) :
    (handleButtonClick b s).1.sequence = s.sequence ∧
    (handleButtonClick b s).1.currentRound = s.currentRound ∧
    (handleButtonClick b s).1.pendings = s.pendings ∧
    (handleButtonClick b s).1.difficulty = s.difficulty ∧
    (handleButtonClick b s).1.playing = s.playing := by
  unfold handleButtonClick
  dsimp only
  split_ifs <;> exact ⟨rfl, rfl, rfl, rfl, rfl⟩

theorem hbc_pendQ (b : Nat) (s : Model) (h1 : s.sequence.length = s.currentRound) :
    ∀ p ∈ (handleButtonClick b s).2.toList, PendQ p := by
  unfold handleButtonClick
  dsimp only
  split_ifs <;> intro p hp <;>
    simp only [Option.toList_some, Option.toList_none, List.mem_singleton,
      List.not_mem_nil] at hp <;>
    first
      | exact hp.elim
      | (subst hp; trivial)

theorem invQ_step (c : Bool) (e : Event) (s : Model) (h : InvQ s) : InvQ (step c e s) := by
  obtain ⟨h1, h2⟩ := h
  unfold step
  rw [invQ_saveBest]
  cases e with
  | press b =>
      obtain ⟨hs, hr, hpends, _, _⟩ := hbc_static b s
      simp only [coreStep]
      refine ⟨by rw [hs, hr]; exact h1, ?_⟩
      intro p hp
      rw [hpends] at hp
      rcases List.mem_append.mp hp with hp | hp
      · exact h2 p hp
      · exact hbc_pendQ b s h1 p hp
  | pressClear => exact ⟨h1, h2⟩
  | playbackDone =>
      simp only [coreStep]
      split
      · exact ⟨h1, h2⟩
      · exact ⟨h1, h2⟩
  | settleFire i r =>
      simp only [coreStep]
      cases hp : s.pendings.get? i with
      | none => exact ⟨h1, h2⟩
      | some a =>
          have hmem : a ∈ s.pendings := List.get?_mem hp
          have herase : ∀ p ∈ s.pendings.eraseIdx i, PendQ p :=
            fun p hp' => h2 p (List.eraseIdx_subset _ _ hp')
          cases a with
          | strictFail => exact ⟨rfl, herase⟩
          | replay cs => exact ⟨h1, herase⟩
          | succeed cs cr =>
              have hq := h2 _ hmem
              simp only [PendQ] at hq
              refine ⟨?_, herase⟩
              simp [applySettle, hq]
  | reset r =>
      simp only [coreStep]
      have hpend : ∀ p ∈ (if c then ([] : List SettleAct) else s.pendings), PendQ p := by
        split
        · intro p hp; cases hp
        · exact h2
      split
      · exact ⟨by simp, hpend⟩
      · exact ⟨by simp, hpend⟩
  | menu =>
      refine ⟨rfl, ?_⟩
      intro p hp
      simp only [coreStep] at hp
      split at hp
      · cases hp
      · exact h2 p hp
  | start r =>
      simp only [coreStep]
      split
      · exact ⟨by simp, h2⟩
      · exact ⟨h1, h2⟩
  | selectDifficulty d =>
      simp only [coreStep]
      split
      · exact ⟨h1, h2⟩
      · exact ⟨h1, h2⟩
  | setStrict m =>
      simp only [coreStep]
      split
      · exact ⟨h1, h2⟩
      · exact ⟨h1, h2⟩

theorem invQ_init : InvQ init := by
  refine ⟨rfl, ?_⟩
  intro p hp
  cases hp

theorem invQ_run (c : Bool) (es : List Event) (s : Model) (h : InvQ s) :
    InvQ (run c es s) := by
  induction es generalizing s with
  | nil => exact h
  | cons e es ih => exact ih _ (invQ_step c e s h)

theorem invR_saveBest (s : Model) : InvR (saveBest s) ↔ InvR s := by
  unfold saveBest; split <;> exact Iff.rfl

theorem pend_singleton {l : List SettleAct} {i : Nat} {a : SettleAct}
    (hl : l.length ≤ 1) (hg : l.get? i = some a) : l = [a] ∧ l.eraseIdx i = [] := by
  cases l with
  | nil => simp at hg
  | cons x t =>
      cases t with
      | nil =>
          cases i with
          | zero => simp_all
          | succ n => simp at hg
      | cons y t2 => simp at hl

theorem invR_step (e : Event) (s : Model) (h : InvR s) : InvR (step true e s) := by
  obtain ⟨h1, h2, h3, h4, h5, h6, h7, h8, h9, h10⟩ := h
  unfold step
  rw [invR_saveBest]
  cases e with
  | press b =>
      by_cases hg : s.gameState = GameState.input
      · obtain ⟨hlt, hpe⟩ := h5 hg
        have hrnd : 1 ≤ s.currentRound := h8 (by rw [hg]; intro hx; cases hx)
        simp only [coreStep]
        unfold handleButtonClick
        dsimp only
        simp only [hg, ne_eq, not_true_eq_false, if_false, ite_false, hpe]
        by_cases hc1 : (s.playerInput ++ [b]).get? ((s.playerInput ++ [b]).length - 1)
            ≠ s.sequence.get? ((s.playerInput ++ [b]).length - 1)
        · rw [if_pos hc1]
          -- mismatch: failure, one settle callback scheduled
          refine ⟨h1, ?_, by simp, by simp, by simp, by simp,
                  ?_, fun _ => hrnd, by simp, h10⟩
          · intro p hp
            simp only [List.nil_append, Option.toList_some, List.mem_singleton] at hp
            subst hp
            split <;> trivial
          · intro _
            simp only [List.length_append, List.length_cons, List.length_nil]
            omega
        · rw [if_neg hc1]
          by_cases hc2 : (s.playerInput ++ [b]).length = s.sequence.length
          · rw [if_pos hc2]
            -- full match: success, growth callback scheduled
            refine ⟨h1, ?_, by simp, by simp, by simp, ?_,
                    by simp, fun _ => hrnd, by simp, h10⟩
            · intro p hp
              simp only [List.nil_append, Option.toList_some, List.mem_singleton] at hp
              subst hp
              exact ⟨h1, h10⟩
            · intro _
              simp only [List.length_append, List.length_cons, List.length_nil] at hc2 ⊢
              omega
          · rw [if_neg hc2]
            -- short match: stay in input, nothing scheduled
            refine ⟨h1, ?_, by simp, by simp, ?_, by simp,
                    by simp, fun _ => hrnd, by simp, h10⟩
            · intro p hp
              simp only [Option.toList_none, List.append_nil] at hp
              cases hp
            · intro _
              refine ⟨?_, by simp⟩
              simp only [List.length_append, List.length_cons, List.length_nil] at hc2 ⊢
              omega
      · have hskip : handleButtonClick b s = (s, none) := by
          unfold handleButtonClick
          rw [if_pos hg]
        have : coreStep true (Event.press b) s = s := by
          simp [coreStep, hskip]
        rw [this]
        exact ⟨h1, h2, h3, h4, h5, h6, h7, h8, h9, h10⟩
  | pressClear => exact ⟨h1, h2, h3, h4, h5, h6, h7, h8, h9, h10⟩
  | playbackDone =>
      simp only [coreStep]
      split
      · rename_i hshow
        obtain ⟨hpin, hpe⟩ := h4 hshow
        have hrnd : 1 ≤ s.currentRound := h8 (by rw [hshow]; intro hx; cases hx)
        refine ⟨h1, ?_, by simp, by simp, ?_, by simp, by simp,
                fun _ => hrnd, h9, h10⟩
        · intro p hp; rw [hpe] at hp; cases hp
        · intro _
          refine ⟨?_, hpe⟩
          rw [hpin]
          simp only [List.length_nil]
          omega
      · exact ⟨h1, h2, h3, h4, h5, h6, h7, h8, h9, h10⟩
  | settleFire i r =>
      simp only [coreStep]
      cases hp : s.pendings.get? i with
      | none => exact ⟨h1, h2, h3, h4, h5, h6, h7, h8, h9, h10⟩
      | some a =>
          obtain ⟨hsing, herase⟩ := pend_singleton h9 hp
          have hmem : a ∈ s.pendings := List.get?_mem hp
          have hok := h2 a hmem
          have hnidle : s.gameState ≠ GameState.idle := by
            intro hid
            rcases h3 hid with ⟨-, hpe, -⟩
            rw [hpe] at hsing; cases hsing
          have hrnd : 1 ≤ s.currentRound := h8 hnidle
          cases a with
          | strictFail =>
              simp only [applySettle]
              refine ⟨rfl, ?_, fun _ => ⟨rfl, herase, rfl⟩, by simp, by simp, by simp,
                      by simp, fun hx => (hx rfl).elim, by simp [herase], by simp⟩
              intro p hp'
              simp [herase] at hp'
          | replay cs =>
              simp only [applySettle]
              refine ⟨h1, ?_, by simp, fun _ => ⟨rfl, herase⟩, by simp, by simp,
                      by simp, fun _ => hrnd, by simp [herase], h10⟩
              intro p hp'
              simp [herase] at hp'
          | succeed cs cr =>
              have hok2 : cs.length = cr ∧ ∀ x ∈ cs, x < s.difficulty.buttons := hok
              obtain ⟨hlen, helems⟩ := hok2
              simp only [applySettle]
              refine ⟨?_, ?_, by simp, fun _ => ⟨rfl, herase⟩, by simp, by simp,
                      by simp, fun _ => Nat.succ_le_succ (Nat.zero_le cr), by simp [herase], ?_⟩
              · simp only [List.length_append, List.length_cons, List.length_nil]
                omega
              · intro p hp'
                simp [herase] at hp'
              · intro x hx
                rcases List.mem_append.mp hx with hx | hx
                · exact helems x hx
                · rw [List.mem_singleton] at hx
                  subst hx
                  exact randIndex_lt r s.difficulty
  | reset r =>
      simp only [coreStep]
      split
      · refine ⟨by simp, ?_, by simp, fun _ => ⟨rfl, rfl⟩, by simp, by simp,
                by simp, fun _ => le_refl 1, by simp, ?_⟩
        · intro p hp'; cases hp'
        · intro x hx
          rw [List.mem_singleton] at hx
          subst hx
          exact randIndex_lt r s.difficulty
      · refine ⟨rfl, ?_, fun _ => ⟨rfl, rfl, rfl⟩, by simp, by simp, by simp,
                by simp, fun hx => (hx rfl).elim, by simp, by simp⟩
        intro p hp'; cases hp'
  | menu =>
      refine ⟨rfl, ?_, fun _ => ⟨rfl, rfl, rfl⟩, by simp [coreStep], by simp [coreStep],
              by simp [coreStep], by simp [coreStep], fun hx => (hx rfl).elim,
              by simp [coreStep], by simp [coreStep]⟩
      intro p hp'
      simp only [coreStep, if_true] at hp'
      cases hp'
  | start r =>
      simp only [coreStep]
      split
      · rename_i hid
        obtain ⟨hseq0, hpe, hpin⟩ := h3 hid
        refine ⟨by simp, ?_, by simp, fun _ => ⟨rfl, hpe⟩, by simp, by simp,
                by simp, fun _ => le_refl 1, by simp [hpe], ?_⟩
        · intro p hp'
          rw [hpe] at hp'; cases hp'
        · intro x hx
          rw [List.mem_singleton] at hx
          subst hx
          exact randIndex_lt r s.difficulty
      · exact ⟨h1, h2, h3, h4, h5, h6, h7, h8, h9, h10⟩
  | selectDifficulty d =>
      simp only [coreStep]
      split
      · rename_i hid
        obtain ⟨hseq0, hpe, hpin⟩ := h3 hid
        refine ⟨h1, ?_, fun _ => ⟨hseq0, hpe, hpin⟩, ?_, ?_, ?_, ?_, ?_, h9, ?_⟩
        · intro p hp'
          rw [hpe] at hp'; cases hp'
        · intro hx; rw [hid] at hx; cases hx
        · intro hx; rw [hid] at hx; cases hx
        · intro hx; rw [hid] at hx; cases hx
        · intro hx; rw [hid] at hx; cases hx
        · intro hx; exact absurd hid hx
        · rw [hseq0]; intro x hx; cases hx
      · exact ⟨h1, h2, h3, h4, h5, h6, h7, h8, h9, h10⟩
  | setStrict m =>
      simp only [coreStep]
      split
      · exact ⟨h1, h2, h3, h4, h5, h6, h7, h8, h9, h10⟩
      · exact ⟨h1, h2, h3, h4, h5, h6, h7, h8, h9, h10⟩

theorem invR_init : InvR init := by
  refine ⟨rfl, ?_, fun _ => ⟨rfl, rfl, rfl⟩, by simp [init], by simp [init],
          by simp [init], by simp [init], fun hx => (hx rfl).elim, by simp [init], ?_⟩
  · intro p hp; cases hp
  · intro x hx; cases hx

theorem invR_run (es : List Event) (s : Model) (h : InvR s) : InvR (run true es s) := by
  induction es generalizing s with
  | nil => exact h
  | cons e es ih => exact ih _ (invR_step e s h)

/-!  Claim theorems.  -/

/-- C1: while GameState is input, a submitted button index b is appended
to PlayerInput and compared against Sequence at the new last position
(index one less than the new PlayerInput length); a match short of the
full sequence length keeps the state in input with nothing scheduled, a
match reaching the full length moves to success, and a mismatch moves to
failure regardless of strict mode. -/
theorem input_verification_correct (s : Model) (b : Nat)
    (h : s.gameState = GameState.input) : clickOutcome s b := by
  have hb : (s.playerInput ++ [b])[s.playerInput.length]? = some b :=
    List.getElem?_concat_length _ _
  unfold clickOutcome handleButtonClick
  simp only [h, ne_eq, not_true_eq_false, if_false, ite_false, List.get?_eq_getElem?,
    List.length_append, List.length_cons, List.length_nil, Nat.add_sub_cancel,
    Nat.zero_add, hb]
  refine ⟨?_, ?_, ?_, ?_⟩
  · split_ifs <;> rfl
  · intro hm hlt
    rw [if_neg (not_not_intro hm.symm), if_neg (by omega)]
    exact ⟨rfl, rfl⟩
  · intro hm heq
    rw [if_neg (not_not_intro hm.symm), if_pos (by omega)]
  · intro hm
    rw [if_pos (fun hc => hm hc.symm)]

/-- Witness for C1: in the concrete mid-round state wInput pressing
button 2 matches the first slot and stays in input. -/
theorem input_verification_instance :
    wInput.gameState = GameState.input ∧
    (handleButtonClick 2 wInput).1.playerInput = wInput.playerInput ++ [2] ∧
    (handleButtonClick 2 wInput).1.gameState = GameState.input ∧
    (handleButtonClick 2 wInput).2 = none := by
  have h := input_verification_correct wInput 2 rfl
  have h2 := h.2.1 (by decide) (by decide)
  exact ⟨rfl, h.1, h2.1, h2.2⟩

/-- C2: in every reachable state of either semantics, whenever GameState
is not idle the length of Sequence equals Round (over every difficulty,
since traces range over difficulty selections), and starting a game from
any reachable idle state yields a Sequence of length one and Round one. -/
theorem sequence_length_tracks_round (c : Bool) (es : List Event) :
    ((run c es init).gameState ≠ GameState.idle →
      (run c es init).sequence.length = (run c es init).currentRound) ∧
    (∀ r, (run c es init).gameState = GameState.idle →
      (step c (Event.start r) (run c es init)).sequence.length = 1 ∧
      (step c (Event.start r) (run c es init)).currentRound = 1) := by
  have hq := invQ_run c es init invQ_init
  refine ⟨fun _ => hq.1, ?_⟩
  intro r hid
  unfold step
  simp [coreStep, hid]

/-- Witness for C2: the started game has a one-element sequence in round
one, both directly after a start event and via the invariant. -/
theorem sequence_length_tracks_round_instance :
    ((run true [Event.start 0] init).gameState ≠ GameState.idle ∧
      (run true [Event.start 0] init).sequence.length =
        (run true [Event.start 0] init).currentRound) ∧
    ((run true [] init).gameState = GameState.idle ∧
      (step true (Event.start 2) (run true [] init)).sequence.length = 1 ∧
      (step true (Event.start 2) (run true [] init)).currentRound = 1) := by
  refine ⟨⟨by decide, (sequence_length_tracks_round true [Event.start 0]).1 (by decide)⟩,
          by decide,
          ((sequence_length_tracks_round true []).2 2 (by decide)).1,
          ((sequence_length_tracks_round true []).2 2 (by decide)).2⟩

/-- C3: the cancellation contract is violated by the source.  After run 0
finishes playback and schedules its 600 ms input transition, resetGame
sets the shared flag, and the delayed showSequence of the reset starts
run 1, which resets the shared flag to false; run 0's transition timeout,
whose handle was never stored, then fires and performs the transition
into input while run 1 is still mid-playback: a state mutation by a stale
callback of a cancelled run after a new run has started.  Every firing in
the trace respects the source's real delays. -/
theorem stale_playback_transition_fires :
    (prun staleTrace pinit).pGameState = GameState.input ∧
    (prun staleTrace pinit).interval = some (1, [1], 0) ∧
    (prun staleTrace pinit).log.getLast? = some (PEffect.toInput 0) ∧
    (prun staleTrace pinit).flag = false := by decide

/-- C4: after a mismatched click the handler schedules the strict
callback when strictMode is on and the replay callback otherwise; the
strict callback resets to idle with Round zero and empty buffers, and the
replay callback clears PlayerInput, returns to showing, leaves Sequence
and Round unchanged and replays exactly the same sequence. -/
theorem failure_recovery_policy (s : Model) (b r : Nat)
    (hIn : s.gameState = GameState.input)
    (hMis : s.sequence.get? s.playerInput.length ≠ some b) : failureRecovery s b r := by
  have hb : (s.playerInput ++ [b])[s.playerInput.length]? = some b :=
    List.getElem?_concat_length _ _
  rw [List.get?_eq_getElem?] at hMis
  unfold failureRecovery handleButtonClick
  simp only [hIn, ne_eq, not_true_eq_false, if_false, ite_false, List.get?_eq_getElem?,
    List.length_append, List.length_cons, List.length_nil, Nat.add_sub_cancel, hb]
  rw [if_pos (fun hc => hMis hc.symm)]
  refine ⟨rfl, ?_, ?_⟩
  · intro hs; exact ⟨rfl, rfl, rfl, rfl⟩
  · intro hs; exact ⟨rfl, rfl, rfl, rfl, rfl⟩

/-- Witness for C4: in wInput (non-strict) pressing the wrong button 0
schedules the replay callback, which clears PlayerInput and replays the
unchanged sequence. -/
theorem failure_recovery_policy_instance :
    wInput.gameState = GameState.input ∧
    wInput.sequence.get? wInput.playerInput.length ≠ some 0 ∧
    (handleButtonClick 0 wInput).2 =
      some (if wInput.strictMode then SettleAct.strictFail
            else SettleAct.replay wInput.sequence) ∧
    (applySettle (SettleAct.replay wInput.sequence) 5
        (handleButtonClick 0 wInput).1).playerInput = [] ∧
    (applySettle (SettleAct.replay wInput.sequence) 5
        (handleButtonClick 0 wInput).1).sequence = wInput.sequence := by
  have h := failure_recovery_policy wInput 0 5 rfl (by decide)
  have h3 := h.2.2 rfl
  exact ⟨rfl, by decide, h.1, h3.1, h3.2.2.1⟩

/-- C5: completing a round schedules the success callback, which appends
exactly one fresh random index to the sequence without touching the
earlier elements, increments Round by one, clears PlayerInput, returns to
showing and plays back the whole extended sequence. -/
theorem round_growth_by_one (s : Model) (b r : Nat)
    (hIn : s.gameState = GameState.input)
    (hM : s.sequence.get? s.playerInput.length = some b)
    (hLen : s.playerInput.length + 1 = s.sequence.length) : roundGrowth s b r := by
  have hb : (s.playerInput ++ [b])[s.playerInput.length]? = some b :=
    List.getElem?_concat_length _ _
  rw [List.get?_eq_getElem?] at hM
  unfold roundGrowth handleButtonClick
  simp only [hIn, ne_eq, not_true_eq_false, if_false, ite_false, List.get?_eq_getElem?,
    List.length_append, List.length_cons, List.length_nil, Nat.add_sub_cancel, hb]
  rw [if_neg (not_not_intro hM.symm), if_pos (by omega)]
  exact ⟨rfl, rfl, List.take_left _ _, rfl, rfl, rfl, rfl, randIndex_lt r s.difficulty⟩

/-- Witness for C5: completing round one in wRound1 grows the sequence
from [2] to [2, 3] (oracle 7 on four buttons) and moves to round two. -/
theorem round_growth_by_one_instance :
    wRound1.gameState = GameState.input ∧
    wRound1.sequence.get? wRound1.playerInput.length = some 2 ∧
    wRound1.playerInput.length + 1 = wRound1.sequence.length ∧
    roundGrowth wRound1 2 7 :=
  ⟨rfl, by decide, by decide, round_growth_by_one wRound1 2 7 rfl (by decide) (by decide)⟩

/-- C6 counterexample: on the reachable trace c6trace the player misses
at the final position, so PlayerInput and Sequence have equal lengths
while the game sits in failure: the lengths are equal although the round
did not complete, refuting the claimed equivalence. -/
theorem equal_lengths_without_completion :
    (run true c6trace init).playerInput.length =
      (run true c6trace init).sequence.length ∧
    (run true c6trace init).gameState = GameState.failure ∧
    (run true c6trace init).gameState ≠ GameState.success := by decide

/-- C6 amended: in every state reachable under the semantics in which
reset and menu invalidate the scheduled settle callbacks, PlayerInput is
never longer than Sequence; and whenever a click completes a round
(moves the input state to success) the two lengths are equal.  Equality
without completion is possible, so only this direction holds. -/
theorem player_never_ahead (es : List Event) (b : Nat) :
    (run true es init).playerInput.length ≤ (run true es init).sequence.length ∧
    ((run true es init).gameState = GameState.input →
      (handleButtonClick b (run true es init)).1.gameState = GameState.success →
      (handleButtonClick b (run true es init)).1.playerInput.length =
        (handleButtonClick b (run true es init)).1.sequence.length) := by
  obtain ⟨h1, h2, h3, h4, h5, h6, h7, h8, h9, h10⟩ := invR_run es init invR_init
  constructor
  · cases hgs : (run true es init).gameState with
    | idle =>
        obtain ⟨-, -, hpi⟩ := h3 hgs
        rw [hpi]
        exact Nat.zero_le _
    | showing =>
        obtain ⟨hpi, -⟩ := h4 hgs
        rw [hpi]
        exact Nat.zero_le _
    | input => exact Nat.le_of_lt (h5 hgs).1
    | success => exact h6 hgs
    | failure => exact h7 hgs
  · intro hin hsucc
    unfold handleButtonClick at hsucc ⊢
    simp only [hin, ne_eq, not_true_eq_false, if_false, ite_false] at hsucc ⊢
    split_ifs at hsucc ⊢ with hd1 hd2
    simp only [List.length_append, List.length_cons, List.length_nil] at hd2 ⊢
    omega

/-- Witness for C6: after start and playback on easy, the reachable input
state has PlayerInput no longer than Sequence, and the completing press 0
equalises the lengths. -/
theorem player_never_ahead_instance :
    (run true [Event.start 0, Event.playbackDone] init).playerInput.length ≤
      (run true [Event.start 0, Event.playbackDone] init).sequence.length ∧
    (run true [Event.start 0, Event.playbackDone] init).gameState = GameState.input ∧
    (handleButtonClick 0 (run true [Event.start 0, Event.playbackDone] init)).1.gameState
      = GameState.success ∧
    (handleButtonClick 0 (run true [Event.start 0, Event.playbackDone] init)).1.playerInput.length
      = (handleButtonClick 0 (run true [Event.start 0, Event.playbackDone] init)).1.sequence.length := by
  have h := player_never_ahead [Event.start 0, Event.playbackDone] 0
  exact ⟨h.1, by decide, by decide, h.2 (by decide) (by decide)⟩

/-- C7: the best-score bookkeeping misses updates after a difficulty
switch.  On the trace c7trace the player reaches round 1 on easy (best 1
stored for easy), returns to the menu, selects medium - whose slot is
empty, so the load effect keeps easy's value 1 in bestScore - and reaches
round 1 on medium; round 1 does not exceed the stale in-memory value, so
medium's stored best remains absent although the maximum round observed
on medium is 1. -/
theorem best_score_missed_update :
    (run true c7trace init).difficulty = Difficulty.medium ∧
    (run true c7trace init).currentRound = 1 ∧
    (run true c7trace init).store Difficulty.medium = none ∧
    (run true c7trace init).bestScore = 1 := by decide

/-- C8 counterexample: under the source semantics, in which reset and
menu cannot cancel the settle timeouts, the stale replay callback of
c8trace reaches the input state with an empty Sequence, so the comparison
of the next press reads the slot at index PlayerInput length, which does
not exist: an out-of-bounds sequence access in a reachable state. -/
theorem stale_replay_out_of_bounds :
    (run false c8trace init).gameState = GameState.input ∧
    (run false c8trace init).sequence.length = 0 ∧
    (run false c8trace init).sequence.get?
      ((run false c8trace init).playerInput.length) = none := by decide

/-- C8 amended: all operations are total functions, and under the
semantics in which reset and menu invalidate the settle callbacks every
array access is in bounds in every reachable state: in the input state
the comparison index PlayerInput length lies inside Sequence, every
sequence element is a valid button index and a valid tone-table index,
any in-range press index is a valid tone-table index, and the read of the
new PlayerInput at its last position always yields the pressed button. -/
theorem accesses_in_bounds (es : List Event) (b : Nat) :
    ((run true es init).gameState = GameState.input →
      (run true es init).playerInput.length < (run true es init).sequence.length) ∧
    (∀ x ∈ (run true es init).sequence,
      x < (run true es init).difficulty.buttons ∧ x < BUTTON_FREQUENCIES.length) ∧
    (b < (run true es init).difficulty.buttons → b < BUTTON_FREQUENCIES.length) ∧
    ((run true es init).playerInput ++ [b]).get?
      (((run true es init).playerInput ++ [b]).length - 1) = some b := by
  obtain ⟨h1, h2, h3, h4, h5, h6, h7, h8, h9, h10⟩ := invR_run es init invR_init
  have hb10 : ∀ d : Difficulty, d.buttons ≤ 10 := by intro d; cases d <;> decide
  have hflen : BUTTON_FREQUENCIES.length = 10 := rfl
  refine ⟨fun hin => (h5 hin).1, ?_, ?_, ?_⟩
  · intro x hx
    have hxd := h10 x hx
    have hle := hb10 (run true es init).difficulty
    exact ⟨hxd, by omega⟩
  · intro hb
    have hle := hb10 (run true es init).difficulty
    omega
  · have hidx : ((run true es init).playerInput ++ [b]).length - 1 =
        (run true es init).playerInput.length := by simp
    rw [hidx, List.get?_eq_getElem?]
    exact List.getElem?_concat_length _ _

/-- Witness for C8: on the reachable input state after one start and
playback, the comparison index is in bounds, the sequence element 0 is a
valid button and tone index, and press index 3 is a valid tone index. -/
theorem accesses_in_bounds_instance :
    ((run true [Event.start 0, Event.playbackDone] init).gameState = GameState.input ∧
      (run true [Event.start 0, Event.playbackDone] init).playerInput.length <
        (run true [Event.start 0, Event.playbackDone] init).sequence.length) ∧
    (0 ∈ (run true [Event.start 0, Event.playbackDone] init).sequence ∧
      0 < (run true [Event.start 0, Event.playbackDone] init).difficulty.buttons ∧
      0 < BUTTON_FREQUENCIES.length) ∧
    (3 < (run true [Event.start 0, Event.playbackDone] init).difficulty.buttons ∧
      3 < BUTTON_FREQUENCIES.length) := by
  have h := accesses_in_bounds [Event.start 0, Event.playbackDone] 3
  refine ⟨⟨by decide, h.1 (by decide)⟩, ?_, by decide, h.2.2.1 (by decide)⟩
  have hm := h.2.1 0 (by decide)
  exact ⟨by decide, hm.1, hm.2⟩

/-- C9: a press while GameState is not input returns before touching
anything: the state, including Sequence, PlayerInput, Round, BestScore
and the highlight, is unchanged and nothing is scheduled. -/
theorem click_ignored_outside_input (s : Model) (b : Nat)
    (h : s.gameState ≠ GameState.input) : handleButtonClick b s = (s, none) := by
  unfold handleButtonClick
  rw [if_pos h]

/-- Witness for C9 at the playback state wShowing with button 1. -/
theorem click_ignored_outside_input_instance :
    wShowing.gameState ≠ GameState.input ∧
    handleButtonClick 1 wShowing = (wShowing, none) :=
  ⟨by decide, click_ignored_outside_input wShowing 1 (by decide)⟩

/-- C10: a mismatched press appends the offending index to PlayerInput
before the transition to failure; a mismatch at the final position leaves
PlayerInput and Sequence with equal lengths in the failure state; and
while the game sits in failure only a settle callback, reset or menu
touches PlayerInput (the latter two clear it). -/
theorem failure_retains_player_input (s : Model) (b : Nat)
    (hIn : s.gameState = GameState.input)
    (hMis : s.sequence.get? s.playerInput.length ≠ some b) :
    (handleButtonClick b s).1.playerInput = s.playerInput ++ [b] ∧
    (handleButtonClick b s).1.gameState = GameState.failure ∧
    (s.playerInput.length + 1 = s.sequence.length →
      (handleButtonClick b s).1.playerInput.length =
        (handleButtonClick b s).1.sequence.length) ∧
    failureFrame := by
  have hb : (s.playerInput ++ [b])[s.playerInput.length]? = some b :=
    List.getElem?_concat_length _ _
  rw [List.get?_eq_getElem?] at hMis
  unfold handleButtonClick
  simp only [hIn, ne_eq, not_true_eq_false, if_false, ite_false, List.get?_eq_getElem?,
    List.length_append, List.length_cons, List.length_nil, Nat.add_sub_cancel, hb]
  rw [if_pos (fun hc => hMis hc.symm)]
  refine ⟨rfl, rfl, ?_, failureFrame_holds⟩
  intro hl
  simp only [List.length_append, List.length_cons, List.length_nil]
  omega

/-- Witness for C10: in wAlmost the wrong press 0 at the final position
is appended, the state moves to failure with equal lengths, and the
failure frame property holds. -/
theorem failure_retains_player_input_instance :
    wAlmost.gameState = GameState.input ∧
    wAlmost.sequence.get? wAlmost.playerInput.length ≠ some 0 ∧
    (handleButtonClick 0 wAlmost).1.playerInput = wAlmost.playerInput ++ [0] ∧
    (handleButtonClick 0 wAlmost).1.gameState = GameState.failure ∧
    (handleButtonClick 0 wAlmost).1.playerInput.length =
      (handleButtonClick 0 wAlmost).1.sequence.length ∧
    failureFrame := by
  have h := failure_retains_player_input wAlmost 0 rfl (by decide)
  exact ⟨rfl, by decide, h.1, h.2.1, h.2.2.1 (by decide), h.2.2.2⟩

end Simon
